import Mathlib

/-!
Shallow embedding of the GroceryGo calendar-aware scoring core: the
time-block complexity signal and day-score engine (scoringEngine.ts), the
ingredient shelf-life table (ingredientShelfLife.ts), the complexity-tier
types (types/calendar.ts) and the grocery-pickup optimizer
(pickupOptimizer.ts).

Modelling conventions:
* JavaScript `Date` values are integer Unix timestamps in milliseconds
  (`Int`).  The embedding fixes the local time zone at UTC offset 0 (the
  design requires one consistent zone), so the local calendar day
  containing a timestamp starts at the enclosing multiple of 86400000 ms;
  this matches `localDayBounds`, which reads the UTC date fields and
  rebuilds local midnight.
* JavaScript numbers are modelled as exact rationals (`ℚ`); `Math.round`
  is `jsRound`, floor of `x + 1/2` (round half toward positive infinity).
* `Array.prototype.sort` with a consistent comparator is stable by the
  ECMAScript specification, and a stable sort for a total preorder has a
  unique result, so each sort call is modelled by a stable insertion sort
  on the comparator's key.
* Code that throws (`recommendPickupDay` on an empty week) returns
  `Except String`.
-/

def msPerMinute : Int := 60000

def msPerHour : Int := 3600000

def msPerDay : Int := 86400000

/-- JavaScript `Math.round`: round half toward positive infinity. -/
def jsRound (q : ℚ) : Int := ⌊q + 1/2⌋

inductive CalendarSource
  | google
  | apple
  deriving DecidableEq, Repr

structure EventMetadata where
  location : Option String := none
  description : Option String := none
  recurrence : Option String := none
  deriving DecidableEq, Repr

structure CalendarEvent where
  id : String
  title : String
  startTime : Int
  endTime : Int
  isAllDay : Bool
  source : CalendarSource
  metadata : EventMetadata := {}
  deriving DecidableEq, Repr

inductive ComplexityTier
  | quick
  | standard
  | exploratory
  deriving DecidableEq, Repr

structure TierRange where
  min : ℚ
  max : ℚ
  deriving DecidableEq, Repr

structure TierThresholds where
  exploratory : TierRange
  standard : TierRange
  quick : TierRange
  deriving DecidableEq, Repr

def TIER_THRESHOLDS : TierThresholds :=
  { exploratory := ⟨0, 35⟩, standard := ⟨36, 65⟩, quick := ⟨66, 100⟩ }

/-- Tier derivation from a final score, with the fixed thresholds of
`types/calendar.ts`. -/
def tierFromScore (score : ℚ) : ComplexityTier :=
  if score ≤ TIER_THRESHOLDS.exploratory.max then .exploratory
  else if score ≤ TIER_THRESHOLDS.standard.max then .standard
  else .quick

/-- SignalResult; `rawData` keeps the insertion-ordered key/value record of
raw measurements (all values in the source are numbers). -/
structure SignalResult where
  score : ℚ
  reasoning : String
  rawData : List (String × ℚ)
  deriving DecidableEq, Repr

structure DayScore where
  date : Int
  finalScore : ℚ
  tier : ComplexityTier
  signalBreakdown : List SignalResult
  deriving DecidableEq, Repr

-- Constants of scoringEngine.ts.
def DINNER_PREP_START : Int := 17

def DINNER_PREP_END : Int := 19

def LUNCH_START : Int := 11

def LUNCH_END : Int := 13

def WAKING_HOURS : ℚ := 14

def BACK_TO_BACK_GAP_MINUTES : ℚ := 15

def MAX_COMMITTED_HOURS_PTS : ℚ := 40

def MAX_BACK_TO_BACK_PTS : ℚ := 25

def MAX_MEAL_CONFLICT_PTS : ℚ := 20

def MAX_FREE_BLOCK_PTS : ℚ := 15

/-- Local midnight of the calendar day containing `date`
(`localDayBounds().dayStart`, with the zone fixed at UTC). -/
def localDayStart (date : Int) : Int := msPerDay * (date.fdiv msPerDay)

/-- End of day, 23:59:59.999 (`localDayBounds().dayEnd`). -/
def localDayEnd (date : Int) : Int := localDayStart date + (msPerDay - 1)

/-- Filters events that fall on the given date (`eventsOnDate`). -/
def eventsOnDate (events : List CalendarEvent) (date : Int) : List CalendarEvent :=
  events.filter fun e =>
    decide (e.startTime ≤ localDayEnd date) && decide (localDayStart date ≤ e.endTime)

/-- Overlap in hours between two time ranges (`hoursOverlap`). -/
def hoursOverlap (aStart aEnd bStart bEnd : Int) : ℚ :=
  let overlapStart := max aStart bStart
  let overlapEnd := min aEnd bEnd
  let diffMs := overlapEnd - overlapStart
  if 0 < diffMs then (diffMs : ℚ) / (msPerHour : ℚ) else 0

/-- One step of the stable insertion sort modelling
`[...dayEvents].sort((a, b) => a.startTime.getTime() - b.startTime.getTime())`:
an element stays in front of `x` exactly when it compares strictly
earlier, so equal start times keep their original order. -/
def insertByStart (x : CalendarEvent) : List CalendarEvent → List CalendarEvent
  | [] => [x]
  | y :: ys => if y.startTime < x.startTime then y :: insertByStart x ys else x :: y :: ys

def sortByStart : List CalendarEvent → List CalendarEvent
  | [] => []
  | x :: xs => insertByStart x (sortByStart xs)

/-- The day's events sorted by start time (`sorted` in `compute`). -/
def dayEventsSorted (events : List CalendarEvent) (date : Int) : List CalendarEvent :=
  sortByStart (eventsOnDate events date)

/-- `sorted.reduce((sum, e) => sum + durationMs / 3600000, 0)`. -/
def totalCommittedHours (sorted : List CalendarEvent) : ℚ :=
  sorted.foldl (fun sum e => sum + ((e.endTime - e.startTime : Int) : ℚ) / (msPerHour : ℚ)) 0

def committedPts (events : List CalendarEvent) (date : Int) : ℚ :=
  min MAX_COMMITTED_HOURS_PTS
    (totalCommittedHours (dayEventsSorted events date) / WAKING_HOURS * MAX_COMMITTED_HOURS_PTS)

/-- Count of adjacent pairs (in start-time order) whose gap is at most 15
minutes. -/
def backToBackCount : List CalendarEvent → ℕ
  | [] => 0
  | [_] => 0
  | x :: y :: rest =>
      (if ((y.startTime - x.endTime : Int) : ℚ) / (msPerMinute : ℚ) ≤ BACK_TO_BACK_GAP_MINUTES
        then 1 else 0)
      + backToBackCount (y :: rest)

/-- `Math.max(sorted.length - 1, 1)`. -/
def maxPossibleB2B (events : List CalendarEvent) (date : Int) : Int :=
  max (((dayEventsSorted events date).length : Int) - 1) 1

def b2bPts (events : List CalendarEvent) (date : Int) : ℚ :=
  ((backToBackCount (dayEventsSorted events date) : ℚ) / ((maxPossibleB2B events date : Int) : ℚ))
    * MAX_BACK_TO_BACK_PTS

def dinnerOverlapHours (events : List CalendarEvent) (date : Int) : ℚ :=
  ((dayEventsSorted events date).map fun e =>
    hoursOverlap e.startTime e.endTime
      (localDayStart date + DINNER_PREP_START * msPerHour)
      (localDayStart date + DINNER_PREP_END * msPerHour)).sum

def lunchOverlapHours (events : List CalendarEvent) (date : Int) : ℚ :=
  ((dayEventsSorted events date).map fun e =>
    hoursOverlap e.startTime e.endTime
      (localDayStart date + LUNCH_START * msPerHour)
      (localDayStart date + LUNCH_END * msPerHour)).sum

def mealPts (events : List CalendarEvent) (date : Int) : ℚ :=
  let dinnerConflictRatio :=
    min (dinnerOverlapHours events date / ((DINNER_PREP_END - DINNER_PREP_START : Int) : ℚ)) 1
  let lunchConflictRatio :=
    min (lunchOverlapHours events date / ((LUNCH_END - LUNCH_START : Int) : ℚ)) 1
  (dinnerConflictRatio * 2 + lunchConflictRatio) / 3 * MAX_MEAL_CONFLICT_PTS

/-- The free-block walk across the waking window: gaps are recorded before,
between and after events, clipped to the window; `cursor` starts at the
waking start. -/
def freeBlocksFrom (wakingStart wakingEnd cursor : Int) :
    List CalendarEvent → List ℚ
  | [] =>
      if cursor < wakingEnd then [((wakingEnd - cursor : Int) : ℚ) / (msPerHour : ℚ)] else []
  | e :: rest =>
      let eventStart := max e.startTime wakingStart
      let newCursor := max cursor (min e.endTime wakingEnd)
      if cursor < eventStart then
        (((eventStart - cursor : Int) : ℚ) / (msPerHour : ℚ))
          :: freeBlocksFrom wakingStart wakingEnd newCursor rest
      else freeBlocksFrom wakingStart wakingEnd newCursor rest

/-- `freeBlocks.length > 0 ? Math.max(...freeBlocks) : 0`. -/
def listMax : List ℚ → ℚ
  | [] => 0
  | x :: xs => xs.foldl max x

def largestFreeBlockHours (events : List CalendarEvent) (date : Int) : ℚ :=
  listMax (freeBlocksFrom (localDayStart date + 7 * msPerHour)
    (localDayStart date + 23 * msPerHour)
    (localDayStart date + 7 * msPerHour)
    (dayEventsSorted events date))

def freeBlockPts (events : List CalendarEvent) (date : Int) : ℚ :=
  MAX_FREE_BLOCK_PTS * (1 - min (largestFreeBlockHours events date / WAKING_HOURS) 1)

def rawScore (events : List CalendarEvent) (date : Int) : ℚ :=
  committedPts events date + b2bPts events date + mealPts events date + freeBlockPts events date

/-- Decimal formatting of `Number.toFixed(1)` used by the reasoning
strings (one digit after the point, rounded to the nearest tenth). -/
def toFixed1 (q : ℚ) : String :=
  let tenths : Int := jsRound (q * 10)
  toString (tenths.fdiv 10) ++ "." ++ toString (tenths.emod 10)

def timeBlockReasoning (events : List CalendarEvent) (date : Int) : String :=
  let parts :=
    [toFixed1 (totalCommittedHours (dayEventsSorted events date)) ++ "h committed"]
    ++ (if 0 < backToBackCount (dayEventsSorted events date) then
          [toString (backToBackCount (dayEventsSorted events date)) ++ " back-to-back"]
        else [])
    ++ (if 0 < dinnerOverlapHours events date then ["dinner prep conflict"] else [])
    ++ (if 0 < lunchOverlapHours events date then ["lunch conflict"] else [])
    ++ ["largest free block " ++ toFixed1 (largestFreeBlockHours events date) ++ "h"]
  String.intercalate "; " parts

namespace TimeBlockSignal

/-- `TimeBlockSignal.compute`: the busyness score (0-100) for a single day. -/
def compute (events : List CalendarEvent) (date : Int) : SignalResult :=
  let dayEvents := eventsOnDate events date
  if dayEvents.length = 0 then
    { score := 0
      reasoning := "Completely free day"
      rawData :=
        [("totalCommittedHours", 0),
         ("largestFreeBlockHours", WAKING_HOURS),
         ("backToBackCount", 0)] }
  else
    { score := ((jsRound (min 100 (max 0 (rawScore events date))) : Int) : ℚ)
      reasoning := timeBlockReasoning events date
      rawData :=
        [("totalCommittedHours", totalCommittedHours (dayEventsSorted events date)),
         ("largestFreeBlockHours", largestFreeBlockHours events date),
         ("backToBackCount", (backToBackCount (dayEventsSorted events date) : ℚ)),
         ("dinnerOverlapHours", dinnerOverlapHours events date),
         ("lunchOverlapHours", lunchOverlapHours events date),
         ("committedPts", committedPts events date),
         ("b2bPts", b2bPts events date),
         ("mealPts", mealPts events date),
         ("freeBlockPts", freeBlockPts events date)] }

end TimeBlockSignal

/-- The pluggable-signal record (`ScoreSignal` in types/calendar.ts). -/
structure ScoreSignal where
  name : String
  weight : ℚ
  compute : List CalendarEvent → Int → SignalResult

def timeBlockScoreSignal : ScoreSignal :=
  { name := "time-block", weight := 1, compute := TimeBlockSignal.compute }

namespace DayScoreEngine

/-- `new DayScoreEngine()` defaults its signal list to one TimeBlockSignal. -/
def defaultSignals : List ScoreSignal := [timeBlockScoreSignal]

/-- The per-day body of `scoreWeek`: evaluate every signal, combine by
weighted average, round, derive the tier. -/
def scoreDayAt (signals : List ScoreSignal) (events : List CalendarEvent) (date : Int) :
    DayScore :=
  let signalResults := signals.map fun s => s.compute events date
  let totalWeightedScore := (signals.map fun s => (s.compute events date).score * s.weight).sum
  let totalWeight := (signals.map fun s => s.weight).sum
  let finalScore : ℚ :=
    if 0 < totalWeight then ((jsRound (totalWeightedScore / totalWeight) : Int) : ℚ) else 0
  { date := date
    finalScore := finalScore
    tier := tierFromScore finalScore
    signalBreakdown := signalResults }

/-- `scoreWeek`: one DayScore per day for `weekStart + i` days, i = 0..6;
`setDate(getDate() + i)` adds whole days in the fixed zone. -/
def scoreWeek (signals : List ScoreSignal) (events : List CalendarEvent) (weekStart : Int) :
    List DayScore :=
  (List.range 7).map fun (i : ℕ) => scoreDayAt signals events (weekStart + (i : Int) * msPerDay)

end DayScoreEngine

inductive ShelfLifeCategory
  | short
  | medium
  | long
  deriving DecidableEq, Repr

structure ShelfLifeEntry where
  category : ShelfLifeCategory
  minDays : ℚ
  maxDays : ℚ
  deriving DecidableEq, Repr

/-- The fixed shelf-life reference table of ingredientShelfLife.ts, as an
insertion-ordered association list. -/
def SHELF_LIFE : List (String × ShelfLifeEntry) :=
  [("Fresh Herbs", ⟨.short, 1, 3⟩),
   ("Berries", ⟨.short, 1, 3⟩),
   ("Seafood", ⟨.short, 1, 2⟩),
   ("Fish", ⟨.short, 1, 2⟩),
   ("Leafy Greens", ⟨.short, 2, 4⟩),
   ("Fresh Produce", ⟨.medium, 4, 6⟩),
   ("Produce", ⟨.medium, 4, 6⟩),
   ("Fruits", ⟨.medium, 3, 5⟩),
   ("Vegetables", ⟨.medium, 4, 6⟩),
   ("Dairy", ⟨.medium, 5, 7⟩),
   ("Eggs", ⟨.medium, 7, 14⟩),
   ("Poultry", ⟨.medium, 1, 3⟩),
   ("Meat", ⟨.medium, 2, 4⟩),
   ("Deli", ⟨.medium, 3, 5⟩),
   ("Bakery", ⟨.medium, 3, 5⟩),
   ("Bread", ⟨.medium, 3, 5⟩),
   ("Pantry", ⟨.long, 30, 365⟩),
   ("Canned Goods", ⟨.long, 30, 365⟩),
   ("Grains", ⟨.long, 30, 180⟩),
   ("Pasta", ⟨.long, 30, 365⟩),
   ("Rice", ⟨.long, 30, 365⟩),
   ("Spices", ⟨.long, 90, 365⟩),
   ("Condiments", ⟨.long, 30, 180⟩),
   ("Oils", ⟨.long, 30, 180⟩),
   ("Frozen", ⟨.long, 30, 180⟩),
   ("Snacks", ⟨.long, 14, 90⟩),
   ("Beverages", ⟨.long, 14, 90⟩),
   ("Nuts", ⟨.long, 14, 60⟩),
   ("Baking", ⟨.long, 30, 365⟩)]

def DEFAULT_SHELF_LIFE : ShelfLifeEntry := ⟨.medium, 4, 6⟩

/-- `getShelfLife`: exact-match lookup with a medium 4-6 day default. -/
def getShelfLife (category : String) : ShelfLifeEntry :=
  (SHELF_LIFE.lookup category).getD DEFAULT_SHELF_LIFE

-- Pickup optimizer (pickupOptimizer.ts).

def CALENDAR_WEIGHT : ℚ := 0.6

def FRESHNESS_WEIGHT : ℚ := 0.4

structure PerishableMealDate where
  category : String
  plannedDate : Int
  deriving DecidableEq, Repr

/-- The `Pick<GroceryItem, 'item_name' | 'category'>` slice the optimizer
consumes; `category` is optional in the database row. -/
structure GroceryItemRef where
  item_name : String
  category : Option String := none
  deriving DecidableEq, Repr

structure PickupRecommendation where
  day : Int
  dayIndex : ℕ
  reasoning : String
  score : ℚ
  deriving DecidableEq, Repr

/-- The per-meal freshness score pushed into `scores` by the loop body of
`computeFreshnessScore`. -/
def mealFreshness (pickupDate : Int) (meal : PerishableMealDate) : ℚ :=
  let shelfLife := getShelfLife meal.category
  let gapDays : ℚ := ((meal.plannedDate - pickupDate : Int) : ℚ) / (msPerDay : ℚ)
  if gapDays < 0 then 0
  else if gapDays ≤ shelfLife.maxDays then max 0 (100 - gapDays / shelfLife.maxDays * 50)
  else max 0 (50 - min 100 ((gapDays - shelfLife.maxDays) * 20))

/-- `computeFreshnessScore`: 50 when there are no perishable constraints,
otherwise the mean of the per-meal scores.  The `groceryItems` parameter
is present in the source signature but never read by the body. -/
def computeFreshnessScore (pickupDate : Int) (groceryItems : List GroceryItemRef)
    (perishableMealDates : List PerishableMealDate) : ℚ :=
  if perishableMealDates.length = 0 then 50
  else
    ((perishableMealDates.map (mealFreshness pickupDate)).sum)
      / (perishableMealDates.length : ℚ)

/-- One entry of the `scored` array built inside `recommendPickupDay`. -/
structure ScoredDay where
  dayScore : DayScore
  index : ℕ
  calendarScore : ℚ
  freshnessScore : ℚ
  combined : ℚ
  deriving DecidableEq, Repr

def scoreCandidate (groceryItems : List GroceryItemRef)
    (perishableMealDates : List PerishableMealDate) (p : ℕ × DayScore) : ScoredDay :=
  let calendarScore := 100 - p.2.finalScore
  let freshnessScore := computeFreshnessScore p.2.date groceryItems perishableMealDates
  { dayScore := p.2
    index := p.1
    calendarScore := calendarScore
    freshnessScore := freshnessScore
    combined := CALENDAR_WEIGHT * calendarScore + FRESHNESS_WEIGHT * freshnessScore }

/-- One step of the stable insertion sort modelling
`scored.sort((a, b) => b.combined - a.combined)`: an element stays in
front of `x` exactly when its combined score is strictly larger, so ties
keep their original (week) order. -/
def insertScoredDesc (x : ScoredDay) : List ScoredDay → List ScoredDay
  | [] => [x]
  | y :: ys => if x.combined < y.combined then y :: insertScoredDesc x ys else x :: y :: ys

def sortScoredDesc : List ScoredDay → List ScoredDay
  | [] => []
  | x :: xs => insertScoredDesc x (sortScoredDesc xs)

/-- Long weekday names under the fixed UTC zone;
`toLocaleDateString('en-US', \x7b weekday: 'long' \x7d)`.  The Unix epoch
day was a Thursday. -/
def WEEKDAY_NAMES : List String :=
  ["Thursday", "Friday", "Saturday", "Sunday", "Monday", "Tuesday", "Wednesday"]

def dayName (date : Int) : String :=
  WEEKDAY_NAMES.getD ((date.fdiv msPerDay).emod 7).toNat "Thursday"

/-- `buildReasoning`; the `freshnessScore` and `groceryItems` parameters
are present in the source signature but never read by the body. -/
def buildReasoning (dayScore : DayScore) (calendarScore freshnessScore : ℚ)
    (groceryItems : List GroceryItemRef)
    (perishableMealDates : List PerishableMealDate) : String :=
  let parts1 := [dayName dayScore.date ++ " is recommended for grocery pickup."]
  let parts2 := parts1 ++
    [if 70 ≤ calendarScore then "Your calendar is very open that day."
     else if 40 ≤ calendarScore then "Your calendar has moderate availability."
     else "Your calendar is busier, but freshness needs make this the best trade-off."]
  let shortLife := perishableMealDates.filter fun m =>
    decide ((getShelfLife m.category).category = ShelfLifeCategory.short)
  let parts3 :=
    if shortLife.length = 0 then parts2
    else
      let categories := (shortLife.map fun m => m.category).eraseDups
      parts2 ++
        ["Perishable items (" ++ String.intercalate ", " categories
          ++ ") stay freshest with this timing."]
  String.intercalate " " parts3

/-- `recommendPickupDay`: throws on an empty week, otherwise scores every
candidate day, stable-sorts by combined score descending and takes the
first entry.  The `none` branch of the match is unreachable (sorting a
non-empty list is non-empty); it mirrors the source's `scored[0]`. -/
def recommendPickupDay (weekScores : List DayScore) (groceryItems : List GroceryItemRef)
    (perishableMealDates : List PerishableMealDate) :
    Except String PickupRecommendation :=
  if weekScores.length = 0 then
    Except.error "weekScores must contain at least one day"
  else
    let scored := weekScores.enum.map (scoreCandidate groceryItems perishableMealDates)
    match (sortScoredDesc scored).head? with
    | none => Except.error "weekScores must contain at least one day"
    | some best =>
        Except.ok
          { day := best.dayScore.date
            dayIndex := best.index
            reasoning :=
              buildReasoning best.dayScore best.calendarScore best.freshnessScore
                groceryItems perishableMealDates
            score := best.combined }

/-- Shortest shelf-life window across grocery items with a known category,
as the specification words it (30-day fallback when none have one).
Modelled from the spec for comparison with the source's
`computeFreshnessScore`; the source never consults grocery items. -/
def shortestShelfDaysSpec (groceryItems : List GroceryItemRef) : ℚ :=
  match groceryItems.filterMap (fun g => g.category) with
  | [] => 30
  | c :: cs => (cs.map fun c2 => (getShelfLife c2).maxDays).foldl min (getShelfLife c).maxDays

/-- Latest date any short- or medium-category perishable ingredient is
needed, as the specification words it (0 when there is none).  Modelled
from the spec for comparison. -/
def latestPerishableDateSpec (perishableMealDates : List PerishableMealDate) : Int :=
  match perishableMealDates.filter (fun m =>
    decide ((getShelfLife m.category).category = ShelfLifeCategory.short) ||
    decide ((getShelfLife m.category).category = ShelfLifeCategory.medium)) with
  | [] => 0
  | m :: ms => (ms.map fun m2 => m2.plannedDate).foldl max m.plannedDate

/-- Freshness formula exactly as the specification describes it, for
comparison with the source's `computeFreshnessScore`: one shortest window
over grocery items, one latest perishable date, floored whole-day gap,
linear 100-to-50 over the window, then a penalty floored at 0 (the spec
leaves the overshoot rate open; the source's 20-per-day rate is used). -/
def freshnessScoreSpec (pickupDate : Int) (groceryItems : List GroceryItemRef)
    (perishableMealDates : List PerishableMealDate) : ℚ :=
  if perishableMealDates.length = 0 then 50
  else
    let shortest := shortestShelfDaysSpec groceryItems
    let gapDays : ℚ :=
      (((latestPerishableDateSpec perishableMealDates - pickupDate).fdiv msPerDay : Int) : ℚ)
    if gapDays < 0 then 0
    else if gapDays ≤ shortest then 100 - gapDays / shortest * 50
    else max 0 (50 - min 100 ((gapDays - shortest) * 20))

/-- The combined score the optimizer assigns to candidate day `i`:
`0.6 * (100 - finalScore) + 0.4 * freshness` (used to state the selection
properties of `recommendPickupDay`). -/
def candidateCombined (weekScores : List DayScore) (groceryItems : List GroceryItemRef)
    (perishableMealDates : List PerishableMealDate) (i : ℕ) (h : i < weekScores.length) : ℚ :=
  CALENDAR_WEIGHT * (100 - (weekScores.get ⟨i, h⟩).finalScore)
    + FRESHNESS_WEIGHT
      * computeFreshnessScore (weekScores.get ⟨i, h⟩).date groceryItems perishableMealDates

-- Sample data used by concrete witnesses and counterexamples.

def sampleDay (t : Int) (s : ℚ) : DayScore :=
  { date := t, finalScore := s, tier := tierFromScore s, signalBreakdown := [] }

/-- The seven-day week of the pickup optimizer test suite (scores 80, 50,
20, 60, 30, 10, 15). -/
def sampleWeek : List DayScore :=
  [sampleDay 0 80, sampleDay msPerDay 50, sampleDay (2 * msPerDay) 20,
   sampleDay (3 * msPerDay) 60, sampleDay (4 * msPerDay) 30,
   sampleDay (5 * msPerDay) 10, sampleDay (6 * msPerDay) 15]

/-- An event crossing local midnight: 22:00 on epoch day 0 until 02:00 on
day 1 (four hours in total, two on each side). -/
def midnightEvent : CalendarEvent :=
  { id := "evt-1", title := "Late call", startTime := 79200000, endTime := 93600000,
    isAllDay := false, source := .google }

/-- An event well inside epoch day 1, used as a non-overlap witness for
day 0. -/
def nextDayEvent : CalendarEvent :=
  { id := "evt-2", title := "Morning sync", startTime := 90000000, endTime := 93600000,
    isAllDay := false, source := .google }

-- Elementary facts about the JavaScript rounding model.

theorem jsRound_nonneg (q : ℚ) (h : 0 ≤ q) : 0 ≤ jsRound q := by
  unfold jsRound
  refine Int.le_floor.mpr ?_
  push_cast
  linarith

theorem jsRound_le (q : ℚ) (c : Int) (h : q ≤ (c : ℚ)) : jsRound q ≤ c := by
  unfold jsRound
  have : ⌊q + 1/2⌋ < c + 1 := by
    refine Int.floor_lt.mpr ?_
    push_cast
    linarith
  omega

theorem jsRound_intCast (n : Int) : jsRound ((n : Int) : ℚ) = n := by
  unfold jsRound
  rw [Int.floor_int_add]
  norm_num

-- The time-block signal's score is an integer between 0 and 100.

theorem timeBlock_score_int (events : List CalendarEvent) (date : Int) :
    ∃ n : Int, (TimeBlockSignal.compute events date).score = (n : ℚ) := by
  unfold TimeBlockSignal.compute
  by_cases h : (eventsOnDate events date).length = 0
  · exact ⟨0, by simp [h]⟩
  · exact ⟨jsRound (min 100 (max 0 (rawScore events date))), by simp [h]⟩

theorem timeBlock_score_nonneg (events : List CalendarEvent) (date : Int) :
    0 ≤ (TimeBlockSignal.compute events date).score := by
  unfold TimeBlockSignal.compute
  by_cases h : (eventsOnDate events date).length = 0
  · simp [h]
  · simp only [h, if_false]
    have h1 : (0 : ℚ) ≤ min 100 (max 0 (rawScore events date)) :=
      le_min (by norm_num) (le_max_left _ _)
    have := jsRound_nonneg _ h1
    exact_mod_cast this

theorem timeBlock_score_le (events : List CalendarEvent) (date : Int) :
    (TimeBlockSignal.compute events date).score ≤ 100 := by
  unfold TimeBlockSignal.compute
  by_cases h : (eventsOnDate events date).length = 0
  · simp [h]
  · simp only [h, if_false]
    have h1 : min 100 (max 0 (rawScore events date)) ≤ ((100 : Int) : ℚ) := by
      simpa using min_le_left (100 : ℚ) (max 0 (rawScore events date))
    have := jsRound_le _ _ h1
    exact_mod_cast this

-- The default engine's day score is the time-block score itself.

theorem scoreDayAt_default (events : List CalendarEvent) (date : Int) :
    DayScoreEngine.scoreDayAt DayScoreEngine.defaultSignals events date =
      { date := date
        finalScore := (TimeBlockSignal.compute events date).score
        tier := tierFromScore (TimeBlockSignal.compute events date).score
        signalBreakdown := [TimeBlockSignal.compute events date] } := by
  obtain ⟨n, hn⟩ := timeBlock_score_int events date
  unfold DayScoreEngine.scoreDayAt DayScoreEngine.defaultSignals timeBlockScoreSignal
  simp [hn, jsRound_intCast]

theorem scoreDayAt_tier (signals : List ScoreSignal) (events : List CalendarEvent)
    (date : Int) :
    (DayScoreEngine.scoreDayAt signals events date).tier
      = tierFromScore (DayScoreEngine.scoreDayAt signals events date).finalScore := by
  simp [DayScoreEngine.scoreDayAt]

theorem scoreDayAt_date (signals : List ScoreSignal) (events : List CalendarEvent)
    (date : Int) :
    (DayScoreEngine.scoreDayAt signals events date).date = date := by
  simp [DayScoreEngine.scoreDayAt]

theorem mem_scoreWeek (signals : List ScoreSignal) (events : List CalendarEvent)
    (weekStart : Int) (ds : DayScore)
    (h : ds ∈ DayScoreEngine.scoreWeek signals events weekStart) :
    ∃ i : ℕ, i < 7 ∧ ds = DayScoreEngine.scoreDayAt signals events
      (weekStart + (i : Int) * msPerDay) := by
  unfold DayScoreEngine.scoreWeek at h
  simp only [List.mem_map, List.mem_range] at h
  obtain ⟨i, hi, hds⟩ := h
  exact ⟨i, hi, hds.symm⟩

/-- C1: every DayScore produced by `DayScoreEngine.scoreWeek` (with the
default signal list) has `0 ≤ finalScore ≤ 100`, and its tier is exactly
`tierFromScore finalScore` under the fixed thresholds; the tier field is
never set independently of the score. -/
theorem scoreWeek_finalScore_bounds_and_tier (events : List CalendarEvent)
    (weekStart : Int) (ds : DayScore)
    (h : ds ∈ DayScoreEngine.scoreWeek DayScoreEngine.defaultSignals events weekStart) :
    0 ≤ ds.finalScore ∧ ds.finalScore ≤ 100 ∧ ds.tier = tierFromScore ds.finalScore := by
  obtain ⟨i, _, rfl⟩ := mem_scoreWeek _ _ _ _ h
  rw [scoreDayAt_default]
  exact ⟨timeBlock_score_nonneg _ _, timeBlock_score_le _ _, rfl⟩

/-- C1 witness: the first day of a scored empty week satisfies the
invariant. -/
theorem scoreWeek_finalScore_bounds_and_tier_witness :
    0 ≤ (DayScoreEngine.scoreDayAt DayScoreEngine.defaultSignals [] 0).finalScore ∧
    (DayScoreEngine.scoreDayAt DayScoreEngine.defaultSignals [] 0).finalScore ≤ 100 ∧
    (DayScoreEngine.scoreDayAt DayScoreEngine.defaultSignals [] 0).tier
      = tierFromScore (DayScoreEngine.scoreDayAt DayScoreEngine.defaultSignals [] 0).finalScore :=
  scoreWeek_finalScore_bounds_and_tier [] 0 _ (by
    unfold DayScoreEngine.scoreWeek
    refine List.mem_map.mpr ⟨0, by decide, ?_⟩
    norm_num)

/-- C6: `scoreWeek` returns exactly 7 entries; the entry at index `i`
carries the date `weekStart + i` days (index 0 = `weekStart`), so the
dates are strictly ascending. -/
theorem scoreWeek_seven_ascending_days (signals : List ScoreSignal)
    (events : List CalendarEvent) (weekStart : Int) :
    (DayScoreEngine.scoreWeek signals events weekStart).length = 7 ∧
    (DayScoreEngine.scoreWeek signals events weekStart).map (fun ds => ds.date)
      = (List.range 7).map (fun (i : ℕ) => weekStart + (i : Int) * msPerDay) ∧
    ((DayScoreEngine.scoreWeek signals events weekStart).map (fun ds => ds.date)).Chain'
      (· < ·) := by
  have hmap : (DayScoreEngine.scoreWeek signals events weekStart).map (fun ds => ds.date)
      = (List.range 7).map (fun (i : ℕ) => weekStart + (i : Int) * msPerDay) := by
    unfold DayScoreEngine.scoreWeek
    rw [List.map_map]
    refine List.map_congr_left ?_
    intro i _
    exact scoreDayAt_date _ _ _
  refine ⟨by simp [DayScoreEngine.scoreWeek], hmap, ?_⟩
  rw [hmap]
  have h7 : List.range 7 = [0, 1, 2, 3, 4, 5, 6] := by decide
  rw [h7]
  simp only [List.map_cons, List.map_nil, List.chain'_cons, List.chain'_singleton, and_true]
  unfold msPerDay
  refine ⟨?_, ?_, ?_, ?_, ?_, ?_⟩ <;> omega

/-- C7: when no event overlaps the target day, `TimeBlockSignal.compute`
returns score 0, the fully-free-day reasoning string, and raw data with
zero committed hours and a largest free block equal to the full
waking-hours budget, the implementation's `WAKING_HOURS` constant (14). -/
theorem timeBlock_free_day (events : List CalendarEvent) (date : Int)
    (h : eventsOnDate events date = []) :
    TimeBlockSignal.compute events date =
      { score := 0
        reasoning := "Completely free day"
        rawData :=
          [("totalCommittedHours", 0),
           ("largestFreeBlockHours", WAKING_HOURS),
           ("backToBackCount", 0)] } ∧
    WAKING_HOURS = 14 := by
  constructor
  · unfold TimeBlockSignal.compute
    simp [h]
  · rfl

/-- C7 witness: an event held entirely on the next day leaves epoch day 0
fully free. -/
theorem timeBlock_free_day_witness :
    TimeBlockSignal.compute [nextDayEvent] 0 =
      { score := 0
        reasoning := "Completely free day"
        rawData :=
          [("totalCommittedHours", 0),
           ("largestFreeBlockHours", WAKING_HOURS),
           ("backToBackCount", 0)] } ∧
    WAKING_HOURS = 14 :=
  timeBlock_free_day [nextDayEvent] 0 (by decide)

-- The start-time sort is a permutation, so order-independent aggregates
-- (sums, lengths) are unchanged by it.

theorem insertByStart_perm (x : CalendarEvent) (l : List CalendarEvent) :
    (insertByStart x l).Perm (x :: l) := by
  induction l with
  | nil => simp [insertByStart]
  | cons y ys ih =>
      unfold insertByStart
      by_cases hc : y.startTime < x.startTime
      · simp only [hc, if_true]
        exact (ih.cons y).trans (List.Perm.swap x y ys)
      · simp [hc]

theorem sortByStart_perm (l : List CalendarEvent) : (sortByStart l).Perm l := by
  induction l with
  | nil => simp [sortByStart]
  | cons x xs ih =>
      unfold sortByStart
      exact (insertByStart_perm x (sortByStart xs)).trans (ih.cons x)

theorem foldl_add_eq_sum (f : CalendarEvent → ℚ) (l : List CalendarEvent) (a : ℚ) :
    l.foldl (fun s e => s + f e) a = a + (l.map f).sum := by
  induction l generalizing a with
  | nil => simp
  | cons x xs ih => simp [ih, add_assoc]

theorem totalCommittedHours_eq_sum (l : List CalendarEvent) :
    totalCommittedHours (sortByStart l)
      = (l.map fun e => ((e.endTime - e.startTime : Int) : ℚ) / (msPerHour : ℚ)).sum := by
  unfold totalCommittedHours
  rw [foldl_add_eq_sum, zero_add]
  exact ((sortByStart_perm l).map _).sum_eq

/-- C5 counterexample: a 22:00-to-02:00 event (4 h total) is picked up by
both adjacent days, but day 0's committed-hours measurement is the full 4
hours, not the 2-hour overlap that day actually contains. -/
theorem midnight_full_duration_counterexample :
    midnightEvent ∈ eventsOnDate [midnightEvent] 0 ∧
    midnightEvent ∈ eventsOnDate [midnightEvent] msPerDay ∧
    (TimeBlockSignal.compute [midnightEvent] 0).rawData.lookup "totalCommittedHours"
      = some 4 ∧
    hoursOverlap midnightEvent.startTime midnightEvent.endTime
      (localDayStart 0) (localDayStart 0 + msPerDay) = 2 ∧
    (4 : ℚ) ≠ 2 := by
  refine ⟨by decide, by decide, ?_, ?_, by norm_num⟩
  · norm_num [TimeBlockSignal.compute, eventsOnDate, dayEventsSorted, sortByStart,
      insertByStart, totalCommittedHours, localDayStart, localDayEnd, msPerDay, msPerHour,
      midnightEvent, List.lookup]
  · have h1 : localDayStart 0 = 0 := by decide
    rw [h1]
    norm_num [hoursOverlap, midnightEvent, msPerDay, msPerHour]

/-- C5 amended: an event overlapping a day is included in that day's
scoring (so one spanning midnight is scored on both days), but each day's
committed-hours measurement adds the event's full duration
(`endTime - startTime`), not only its overlap with that day. -/
theorem midnight_event_both_days (events : List CalendarEvent) (d : Int) :
    (∀ e ∈ events, e.startTime ≤ localDayEnd d → localDayStart d ≤ e.endTime →
      e ∈ eventsOnDate events d) ∧
    (eventsOnDate events d ≠ [] →
      (TimeBlockSignal.compute events d).rawData.lookup "totalCommittedHours"
        = some (((eventsOnDate events d).map fun e =>
            ((e.endTime - e.startTime : Int) : ℚ) / (msPerHour : ℚ)).sum)) := by
  constructor
  · intro e he h1 h2
    unfold eventsOnDate
    refine List.mem_filter.mpr ⟨he, ?_⟩
    simp [h1, h2]
  · intro hne
    have hlen : ¬(eventsOnDate events d).length = 0 := by
      simpa [List.length_eq_zero] using hne
    unfold TimeBlockSignal.compute
    simp only [hlen, if_false]
    have hsum := totalCommittedHours_eq_sum (eventsOnDate events d)
    simp [List.lookup, dayEventsSorted, hsum]

/-- C5 witness: the midnight-spanning event applied on day 1 — it is
included, and day 1's committed hours are its full four hours. -/
theorem midnight_event_both_days_witness :
    midnightEvent ∈ eventsOnDate [midnightEvent] msPerDay ∧
    (TimeBlockSignal.compute [midnightEvent] msPerDay).rawData.lookup "totalCommittedHours"
      = some (((eventsOnDate [midnightEvent] msPerDay).map fun e =>
          ((e.endTime - e.startTime : Int) : ℚ) / (msPerHour : ℚ)).sum) :=
  ⟨(midnight_event_both_days [midnightEvent] msPerDay).1 midnightEvent (by decide)
      (by decide) (by decide),
    (midnight_event_both_days [midnightEvent] msPerDay).2 (by decide)⟩

-- Bounds for the four sub-scores of the time-block signal.

theorem hoursOverlap_nonneg (aStart aEnd bStart bEnd : Int) :
    0 ≤ hoursOverlap aStart aEnd bStart bEnd := by
  unfold hoursOverlap
  dsimp only
  split
  · next h =>
      have h1 : (0 : ℚ) ≤ ((min aEnd bEnd - max aStart bStart : Int) : ℚ) := by
        exact_mod_cast le_of_lt h
      have h2 : (0 : ℚ) ≤ ((msPerHour : Int) : ℚ) := by norm_num [msPerHour]
      exact div_nonneg h1 h2
  · exact le_refl 0

theorem dinnerOverlapHours_nonneg (events : List CalendarEvent) (date : Int) :
    0 ≤ dinnerOverlapHours events date := by
  unfold dinnerOverlapHours
  refine List.sum_nonneg ?_
  intro q hq
  obtain ⟨e, _, rfl⟩ := List.mem_map.mp hq
  exact hoursOverlap_nonneg _ _ _ _

theorem lunchOverlapHours_nonneg (events : List CalendarEvent) (date : Int) :
    0 ≤ lunchOverlapHours events date := by
  unfold lunchOverlapHours
  refine List.sum_nonneg ?_
  intro q hq
  obtain ⟨e, _, rfl⟩ := List.mem_map.mp hq
  exact hoursOverlap_nonneg _ _ _ _

theorem backToBackCount_lt_length (l : List CalendarEvent) (h : l ≠ []) :
    backToBackCount l < l.length := by
  induction l with
  | nil => cases h rfl
  | cons x xs ih =>
      cases xs with
      | nil => simp [backToBackCount]
      | cons y rest =>
          have hy := ih (List.cons_ne_nil y rest)
          unfold backToBackCount
          split <;> simp only [List.length_cons] at hy ⊢ <;> omega

theorem backToBackCount_le_maxPossible (events : List CalendarEvent) (date : Int) :
    (backToBackCount (dayEventsSorted events date) : Int) ≤ maxPossibleB2B events date := by
  unfold maxPossibleB2B
  cases hl : dayEventsSorted events date with
  | nil => simp [hl, backToBackCount]
  | cons x xs =>
      have := backToBackCount_lt_length (x :: xs) (List.cons_ne_nil x xs)
      rw [← hl] at this ⊢
      have h2 : (backToBackCount (dayEventsSorted events date) : Int)
          ≤ ((dayEventsSorted events date).length : Int) - 1 := by
        omega
      exact h2.trans (le_max_left _ _)

theorem maxPossibleB2B_pos (events : List CalendarEvent) (date : Int) :
    0 < maxPossibleB2B events date := by
  unfold maxPossibleB2B
  omega

theorem freeBlocksFrom_nonneg (wakingStart wakingEnd : Int) (l : List CalendarEvent)
    (cursor : Int) (q : ℚ) (hq : q ∈ freeBlocksFrom wakingStart wakingEnd cursor l) :
    0 ≤ q := by
  induction l generalizing cursor with
  | nil =>
      unfold freeBlocksFrom at hq
      split at hq
      · next h =>
          simp only [List.mem_singleton] at hq
          subst hq
          have h1 : (0 : ℚ) ≤ ((wakingEnd - cursor : Int) : ℚ) := by exact_mod_cast le_of_lt (by omega)
          have h2 : (0 : ℚ) ≤ ((msPerHour : Int) : ℚ) := by norm_num [msPerHour]
          exact div_nonneg h1 h2
      · simp at hq
  | cons e rest ih =>
      unfold freeBlocksFrom at hq
      dsimp only at hq
      split at hq
      · next h =>
          simp only [List.mem_cons] at hq
          rcases hq with rfl | hq
          · have h1 : (0 : ℚ) ≤ ((max e.startTime wakingStart - cursor : Int) : ℚ) := by
              exact_mod_cast le_of_lt (by omega)
            have h2 : (0 : ℚ) ≤ ((msPerHour : Int) : ℚ) := by norm_num [msPerHour]
            exact div_nonneg h1 h2
          · exact ih _ hq
      · exact ih _ hq

theorem le_foldl_max (l : List ℚ) (a : ℚ) : a ≤ l.foldl max a := by
  induction l generalizing a with
  | nil => exact le_refl a
  | cons x xs ih => exact (le_max_left a x).trans (ih (max a x))

theorem listMax_nonneg (l : List ℚ) (h : ∀ q ∈ l, 0 ≤ q) : 0 ≤ listMax l := by
  cases l with
  | nil => exact le_refl 0
  | cons x xs =>
      have hx : 0 ≤ x := h x (List.mem_cons_self x xs)
      exact hx.trans (le_foldl_max xs x)

theorem largestFreeBlockHours_nonneg (events : List CalendarEvent) (date : Int) :
    0 ≤ largestFreeBlockHours events date := by
  unfold largestFreeBlockHours
  exact listMax_nonneg _ (fun q hq => freeBlocksFrom_nonneg _ _ _ _ q hq)

/-- C9: each of the four sub-scores is bounded above by its cap —
committed-hours points by 40, back-to-back points by 25 (because the
back-to-back count never exceeds `max(eventCount - 1, 1)`), meal-window
points by 20 and free-block points by 15 — so the pre-clamp raw sum never
exceeds 100 and the `Math.min(100, ...)` in the final clamp never changes
the value. -/
theorem timeBlock_subscores_capped (events : List CalendarEvent) (date : Int) :
    committedPts events date ≤ 40 ∧
    (backToBackCount (dayEventsSorted events date) : Int) ≤ maxPossibleB2B events date ∧
    b2bPts events date ≤ 25 ∧
    mealPts events date ≤ 20 ∧
    freeBlockPts events date ≤ 15 ∧
    rawScore events date ≤ 100 ∧
    min 100 (max 0 (rawScore events date)) = max 0 (rawScore events date) := by
  have hcommitted : committedPts events date ≤ 40 := by
    unfold committedPts MAX_COMMITTED_HOURS_PTS
    exact min_le_left _ _
  have hcount := backToBackCount_le_maxPossible events date
  have hb2b : b2bPts events date ≤ 25 := by
    unfold b2bPts MAX_BACK_TO_BACK_PTS
    have hpos : (0 : ℚ) < ((maxPossibleB2B events date : Int) : ℚ) := by
      exact_mod_cast maxPossibleB2B_pos events date
    have hle : ((backToBackCount (dayEventsSorted events date) : ℕ) : ℚ)
        ≤ ((maxPossibleB2B events date : Int) : ℚ) := by
      exact_mod_cast hcount
    have hdiv : ((backToBackCount (dayEventsSorted events date) : ℕ) : ℚ)
        / ((maxPossibleB2B events date : Int) : ℚ) ≤ 1 := (div_le_one hpos).mpr hle
    nlinarith
  have hmeal : mealPts events date ≤ 20 := by
    unfold mealPts MAX_MEAL_CONFLICT_PTS
    have h1 : min (dinnerOverlapHours events date
        / ((DINNER_PREP_END - DINNER_PREP_START : Int) : ℚ)) 1 ≤ 1 := min_le_right _ _
    have h2 : min (lunchOverlapHours events date
        / ((LUNCH_END - LUNCH_START : Int) : ℚ)) 1 ≤ 1 := min_le_right _ _
    nlinarith
  have hfree : freeBlockPts events date ≤ 15 := by
    unfold freeBlockPts MAX_FREE_BLOCK_PTS
    have h1 : (0 : ℚ) ≤ largestFreeBlockHours events date / WAKING_HOURS := by
      have := largestFreeBlockHours_nonneg events date
      have hw : (0 : ℚ) ≤ WAKING_HOURS := by norm_num [WAKING_HOURS]
      exact div_nonneg this hw
    have h2 : (0 : ℚ) ≤ min (largestFreeBlockHours events date / WAKING_HOURS) 1 :=
      le_min h1 (by norm_num)
    nlinarith
  have hb2b_nonneg : 0 ≤ b2bPts events date := by
    unfold b2bPts MAX_BACK_TO_BACK_PTS
    have hpos : (0 : ℚ) < ((maxPossibleB2B events date : Int) : ℚ) := by
      exact_mod_cast maxPossibleB2B_pos events date
    have : (0 : ℚ) ≤ ((backToBackCount (dayEventsSorted events date) : ℕ) : ℚ) := by
      positivity
    positivity
  have hraw : rawScore events date ≤ 100 := by
    unfold rawScore
    linarith
  refine ⟨hcommitted, hcount, hb2b, hmeal, hfree, hraw, ?_⟩
  have : max 0 (rawScore events date) ≤ 100 := max_le (by norm_num) hraw
  exact min_eq_right this

-- The optimizer's stable descending sort: permutation facts and the
-- characterization of its first element as the earliest maximum.

theorem insertScoredDesc_perm (x : ScoredDay) (l : List ScoredDay) :
    (insertScoredDesc x l).Perm (x :: l) := by
  induction l with
  | nil => simp [insertScoredDesc]
  | cons y ys ih =>
      unfold insertScoredDesc
      by_cases hc : x.combined < y.combined
      · simp only [hc, if_true]
        exact (ih.cons y).trans (List.Perm.swap x y ys)
      · simp [hc]

theorem sortScoredDesc_perm (l : List ScoredDay) : (sortScoredDesc l).Perm l := by
  induction l with
  | nil => simp [sortScoredDesc]
  | cons x xs ih =>
      unfold sortScoredDesc
      exact (insertScoredDesc_perm x (sortScoredDesc xs)).trans (ih.cons x)

theorem head?_insertScoredDesc (x : ScoredDay) (l : List ScoredDay) :
    (insertScoredDesc x l).head? = some (match l.head? with
      | none => x
      | some y => if x.combined < y.combined then y else x) := by
  cases l with
  | nil => rfl
  | cons y ys =>
      unfold insertScoredDesc
      by_cases hc : x.combined < y.combined
      · simp [hc]
      · simp [hc]

/-- The first element of the stable descending sort is the earliest
element attaining the maximum combined score. -/
theorem sortScoredDesc_head (l : List ScoredDay) (h : l ≠ []) :
    ∃ (i : ℕ) (hi : i < l.length),
      (sortScoredDesc l).head? = some (l.get ⟨i, hi⟩) ∧
      (∀ (j : ℕ) (hj : j < l.length),
        (l.get ⟨j, hj⟩).combined ≤ (l.get ⟨i, hi⟩).combined) ∧
      (∀ (j : ℕ) (hj : j < i),
        (l.get ⟨j, hj.trans hi⟩).combined < (l.get ⟨i, hi⟩).combined) := by
  induction l with
  | nil => cases h rfl
  | cons x xs ih =>
      cases xs with
      | nil =>
          refine ⟨0, by simp, by simp [sortScoredDesc, insertScoredDesc], ?_, ?_⟩
          · intro j hj
            simp only [List.length_singleton, List.length_cons, List.length_nil] at hj
            interval_cases j
            exact le_refl _
          · intro j hj
            exact absurd hj (Nat.not_lt_zero j)
      | cons z zs =>
          obtain ⟨i', hi', hhead, hmax, hfirst⟩ := ih (List.cons_ne_nil z zs)
          have hsort : sortScoredDesc (x :: z :: zs)
              = insertScoredDesc x (sortScoredDesc (z :: zs)) := rfl
          have hlen : (x :: z :: zs).length = (z :: zs).length + 1 := rfl
          by_cases hc : x.combined < ((z :: zs).get ⟨i', hi'⟩).combined
          · refine ⟨i' + 1, by omega, ?_, ?_, ?_⟩
            · rw [hsort, head?_insertScoredDesc, hhead]
              dsimp only
              rw [if_pos hc]
              rfl
            · intro j hj
              cases j with
              | zero => exact le_of_lt hc
              | succ k => exact hmax k (by omega)
            · intro j hj
              cases j with
              | zero => exact hc
              | succ k => exact hfirst k (by omega)
          · refine ⟨0, by omega, ?_, ?_, ?_⟩
            · rw [hsort, head?_insertScoredDesc, hhead]
              dsimp only
              rw [if_neg hc]
              rfl
            · intro j hj
              cases j with
              | zero => exact le_refl _
              | succ k =>
                  have h1 := hmax k (by omega)
                  have h2 : ((z :: zs).get ⟨i', hi'⟩).combined ≤ x.combined := not_lt.mp hc
                  exact h1.trans h2
            · intro j hj
              exact absurd hj (Nat.not_lt_zero j)

theorem scoreCandidate_index (gi : List GroceryItemRef) (pmd : List PerishableMealDate)
    (p : ℕ × DayScore) : (scoreCandidate gi pmd p).index = p.1 := rfl

theorem scoreCandidate_dayScore (gi : List GroceryItemRef) (pmd : List PerishableMealDate)
    (p : ℕ × DayScore) : (scoreCandidate gi pmd p).dayScore = p.2 := rfl

theorem scoreCandidate_combined (gi : List GroceryItemRef) (pmd : List PerishableMealDate)
    (p : ℕ × DayScore) :
    (scoreCandidate gi pmd p).combined
      = CALENDAR_WEIGHT * (100 - p.2.finalScore)
        + FRESHNESS_WEIGHT * computeFreshnessScore p.2.date gi pmd := rfl

theorem scored_get (ws : List DayScore) (gi : List GroceryItemRef)
    (pmd : List PerishableMealDate) (j : ℕ)
    (hj : j < (ws.enum.map (scoreCandidate gi pmd)).length) (hj' : j < ws.length) :
    (ws.enum.map (scoreCandidate gi pmd)).get ⟨j, hj⟩
      = scoreCandidate gi pmd (j, ws.get ⟨j, hj'⟩) := by
  simp [List.get_eq_getElem, List.getElem_map, List.getElem_enum]

/-- Full characterization of `recommendPickupDay` on a non-empty week: it
succeeds, its returned index is in range, the returned day and score are
those of that index, the combined score at that index is maximal over the
week, and every strictly earlier index has a strictly smaller combined
score. -/
theorem recommendPickupDay_spec (ws : List DayScore) (gi : List GroceryItemRef)
    (pmd : List PerishableMealDate) (h : ws ≠ []) :
    ∃ (rec : PickupRecommendation) (hidx : rec.dayIndex < ws.length),
      recommendPickupDay ws gi pmd = Except.ok rec ∧
      rec.day = (ws.get ⟨rec.dayIndex, hidx⟩).date ∧
      rec.score = candidateCombined ws gi pmd rec.dayIndex hidx ∧
      (∀ (j : ℕ) (hj : j < ws.length), candidateCombined ws gi pmd j hj ≤ rec.score) ∧
      (∀ (j : ℕ) (hj : j < rec.dayIndex),
        candidateCombined ws gi pmd j (hj.trans hidx) < rec.score) := by
  have hlen : (ws.enum.map (scoreCandidate gi pmd)).length = ws.length := by
    simp [List.length_map, List.enum_length]
  have hne : ws.enum.map (scoreCandidate gi pmd) ≠ [] := by
    intro hnil
    apply h
    have := congrArg List.length hnil
    rw [hlen] at this
    exact List.length_eq_zero.mp this
  obtain ⟨i, hi, hhead, hmax, hfirst⟩ :=
    sortScoredDesc_head (ws.enum.map (scoreCandidate gi pmd)) hne
  have hiw : i < ws.length := hlen ▸ hi
  have hbest := scored_get ws gi pmd i hi hiw
  have hcomb : ∀ (j : ℕ) (hjs : j < (ws.enum.map (scoreCandidate gi pmd)).length)
      (hj : j < ws.length),
      ((ws.enum.map (scoreCandidate gi pmd)).get ⟨j, hjs⟩).combined
        = candidateCombined ws gi pmd j hj := by
    intro j hjs hj
    rw [scored_get ws gi pmd j hjs hj, scoreCandidate_combined]
    rfl
  have hlen0 : ¬ws.length = 0 := fun h0 => h (List.length_eq_zero.mp h0)
  refine ⟨{ day := (ws.get ⟨i, hiw⟩).date
            dayIndex := i
            reasoning := buildReasoning (ws.get ⟨i, hiw⟩) (100 - (ws.get ⟨i, hiw⟩).finalScore)
              (computeFreshnessScore (ws.get ⟨i, hiw⟩).date gi pmd) gi pmd
            score := candidateCombined ws gi pmd i hiw },
    hiw, ?_, rfl, rfl, ?_, ?_⟩
  · unfold recommendPickupDay
    rw [if_neg hlen0]
    dsimp only
    rw [hhead, hbest]
    rfl
  · intro j hj
    have hjs : j < (ws.enum.map (scoreCandidate gi pmd)).length := hlen.symm ▸ hj
    have hle := hmax j hjs
    rw [hcomb j hjs hj, hcomb i hi hiw] at hle
    exact hle
  · intro j hj
    have hjw : j < ws.length := hj.trans hiw
    have hjs : j < (ws.enum.map (scoreCandidate gi pmd)).length := hlen.symm ▸ hjw
    have hlt := hfirst j hj
    rw [hcomb j hjs hjw, hcomb i hi hiw] at hlt
    exact hlt

/-- C2: with no perishable constraints the optimizer returns a day whose
finalScore equals the minimum finalScore over the seven-day week — every
day's freshness component is the neutral 50, so the availability
component `100 - finalScore` (weight 0.6) decides. -/
theorem recommendPickupDay_min_finalScore (ws : List DayScore) (gi : List GroceryItemRef)
    (h7 : ws.length = 7) :
    ∃ (rec : PickupRecommendation) (hidx : rec.dayIndex < ws.length),
      recommendPickupDay ws gi [] = Except.ok rec ∧
      rec.day = (ws.get ⟨rec.dayIndex, hidx⟩).date ∧
      ∀ (j : ℕ) (hj : j < ws.length),
        (ws.get ⟨rec.dayIndex, hidx⟩).finalScore ≤ (ws.get ⟨j, hj⟩).finalScore := by
  have hne : ws ≠ [] := by
    intro e
    rw [e] at h7
    simp at h7
  obtain ⟨rec, hidx, hok, hday, hscore, hmax, _⟩ := recommendPickupDay_spec ws gi [] hne
  refine ⟨rec, hidx, hok, hday, ?_⟩
  intro j hj
  have hle := hmax j hj
  rw [hscore] at hle
  unfold candidateCombined computeFreshnessScore CALENDAR_WEIGHT FRESHNESS_WEIGHT at hle
  norm_num at hle
  simp only [List.get_eq_getElem]
  linarith

/-- C2 witness: on the test-suite week (scores 80, 50, 20, 60, 30, 10, 15)
with no perishables the optimizer picks a minimum-finalScore day. -/
theorem recommendPickupDay_min_finalScore_witness :
    ∃ (rec : PickupRecommendation) (hidx : rec.dayIndex < sampleWeek.length),
      recommendPickupDay sampleWeek [] [] = Except.ok rec ∧
      rec.day = (sampleWeek.get ⟨rec.dayIndex, hidx⟩).date ∧
      ∀ (j : ℕ) (hj : j < sampleWeek.length),
        (sampleWeek.get ⟨rec.dayIndex, hidx⟩).finalScore
          ≤ (sampleWeek.get ⟨j, hj⟩).finalScore :=
  recommendPickupDay_min_finalScore sampleWeek [] rfl

/-- C4: the optimizer selects the candidate with the strictly highest
combined score `0.6 * availability + 0.4 * freshness`; on exact ties the
earliest day in week order is returned (every candidate strictly earlier
than the winner has a strictly smaller combined score). -/
theorem recommendPickupDay_strict_argmax (ws : List DayScore) (gi : List GroceryItemRef)
    (pmd : List PerishableMealDate) (h : ws ≠ []) :
    ∃ (rec : PickupRecommendation) (hidx : rec.dayIndex < ws.length),
      recommendPickupDay ws gi pmd = Except.ok rec ∧
      rec.score = candidateCombined ws gi pmd rec.dayIndex hidx ∧
      (∀ (j : ℕ) (hj : j < ws.length), candidateCombined ws gi pmd j hj ≤ rec.score) ∧
      (∀ (j : ℕ) (hj : j < rec.dayIndex),
        candidateCombined ws gi pmd j (hj.trans hidx) < rec.score) := by
  obtain ⟨rec, hidx, hok, _, hscore, hmax, hfirst⟩ := recommendPickupDay_spec ws gi pmd h
  exact ⟨rec, hidx, hok, hscore, hmax, hfirst⟩

/-- C4 witness: the selection property instantiated on the test-suite
week. -/
theorem recommendPickupDay_strict_argmax_witness :
    ∃ (rec : PickupRecommendation) (hidx : rec.dayIndex < sampleWeek.length),
      recommendPickupDay sampleWeek [] [] = Except.ok rec ∧
      rec.score = candidateCombined sampleWeek [] [] rec.dayIndex hidx ∧
      (∀ (j : ℕ) (hj : j < sampleWeek.length),
        candidateCombined sampleWeek [] [] j hj ≤ rec.score) ∧
      (∀ (j : ℕ) (hj : j < rec.dayIndex),
        candidateCombined sampleWeek [] [] j (hj.trans hidx) < rec.score) :=
  recommendPickupDay_strict_argmax sampleWeek [] [] (by decide)

/-- C8: an empty weekScores array is the one disallowed input — it raises
the clear error — and every non-empty weekScores (grocery items and
perishable dates possibly empty) returns a recommendation normally. -/
theorem recommendPickupDay_empty_guard (ws : List DayScore) (gi : List GroceryItemRef)
    (pmd : List PerishableMealDate) :
    (ws = [] → recommendPickupDay ws gi pmd
      = Except.error "weekScores must contain at least one day") ∧
    (ws ≠ [] → ∃ rec, recommendPickupDay ws gi pmd = Except.ok rec) := by
  constructor
  · rintro rfl
    rfl
  · intro h
    obtain ⟨rec, _, hok, _⟩ := recommendPickupDay_spec ws gi pmd h
    exact ⟨rec, hok⟩

/-- C8 witness: the error on the empty week and a success on the
seven-day test week. -/
theorem recommendPickupDay_empty_guard_witness :
    recommendPickupDay [] [] [] = Except.error "weekScores must contain at least one day" ∧
    ∃ rec, recommendPickupDay sampleWeek [] [] = Except.ok rec :=
  ⟨(recommendPickupDay_empty_guard [] [] []).1 rfl,
   (recommendPickupDay_empty_guard sampleWeek [] []).2 (by decide)⟩

/-- C10: the recommendation is internally consistent: `dayIndex` is in
range, `day` is exactly that index's date, and `score` equals
`0.6 * (100 - finalScore) + 0.4 * freshness` of that same day.  (The
embedding is purely functional, so the inputs cannot be mutated; in the
source the sort reorders only the local `scored` copy.) -/
theorem recommendPickupDay_consistent (ws : List DayScore) (gi : List GroceryItemRef)
    (pmd : List PerishableMealDate) (h : ws ≠ []) :
    ∃ (rec : PickupRecommendation) (hidx : rec.dayIndex < ws.length),
      recommendPickupDay ws gi pmd = Except.ok rec ∧
      rec.day = (ws.get ⟨rec.dayIndex, hidx⟩).date ∧
      rec.score = (0.6 : ℚ) * (100 - (ws.get ⟨rec.dayIndex, hidx⟩).finalScore)
        + (0.4 : ℚ) * computeFreshnessScore (ws.get ⟨rec.dayIndex, hidx⟩).date gi pmd := by
  obtain ⟨rec, hidx, hok, hday, hscore, _, _⟩ := recommendPickupDay_spec ws gi pmd h
  refine ⟨rec, hidx, hok, hday, ?_⟩
  rw [hscore]
  rfl

/-- C10 witness: consistency instantiated on the test-suite week with a
perishable seafood meal. -/
theorem recommendPickupDay_consistent_witness :
    ∃ (rec : PickupRecommendation) (hidx : rec.dayIndex < sampleWeek.length),
      recommendPickupDay sampleWeek [] [⟨"Seafood", 4 * msPerDay⟩] = Except.ok rec ∧
      rec.day = (sampleWeek.get ⟨rec.dayIndex, hidx⟩).date ∧
      rec.score = (0.6 : ℚ) * (100 - (sampleWeek.get ⟨rec.dayIndex, hidx⟩).finalScore)
        + (0.4 : ℚ) * computeFreshnessScore (sampleWeek.get ⟨rec.dayIndex, hidx⟩).date []
            [⟨"Seafood", 4 * msPerDay⟩] :=
  recommendPickupDay_consistent sampleWeek [] [⟨"Seafood", 4 * msPerDay⟩] (by decide)

/-- C3 counterexample: for pickup on epoch day 0, an empty grocery list
and a single Seafood meal on day 1, the source computes freshness 75
(each meal uses its own category's 2-day window), while the claimed
formula — shortest shelf-life across grocery items with a 30-day fallback
and a floored gap — gives 295/3; the two disagree, so the claimed
description of the freshness component is false at this input. -/
theorem freshness_formula_counterexample :
    computeFreshnessScore 0 [] [⟨"Seafood", msPerDay⟩] = 75 ∧
    freshnessScoreSpec 0 [] [⟨"Seafood", msPerDay⟩] = 295 / 3 ∧
    computeFreshnessScore 0 [] [⟨"Seafood", msPerDay⟩]
      ≠ freshnessScoreSpec 0 [] [⟨"Seafood", msPerDay⟩] := by
  have hsl : getShelfLife "Seafood" = ⟨.short, 1, 2⟩ := by decide
  have hlat : latestPerishableDateSpec [⟨"Seafood", msPerDay⟩] = msPerDay := by decide
  have hfdiv : ((msPerDay - 0 : Int).fdiv msPerDay) = 1 := by decide
  have hfdiv2 : (msPerDay.fdiv msPerDay) = 1 := by decide
  have h1 : computeFreshnessScore 0 [] [⟨"Seafood", msPerDay⟩] = 75 := by
    norm_num [computeFreshnessScore, mealFreshness, hsl, msPerDay, max_def, min_def]
  have h2 : freshnessScoreSpec 0 [] [⟨"Seafood", msPerDay⟩] = 295 / 3 := by
    norm_num [freshnessScoreSpec, shortestShelfDaysSpec, hlat, hfdiv, hfdiv2, max_def, min_def]
  refine ⟨h1, h2, ?_⟩
  rw [h1, h2]
  norm_num

/-- C3 amended: the freshness component never consults the grocery items;
for a non-empty perishable list it is the average over the meals of
per-meal scores, each using that meal's own category shelf-life `maxDays`
and a fractional (not floored) day gap — 0 when the gap is negative,
linear from 100 at gap 0 to 50 at gap = maxDays, and otherwise
`max(0, 50 - min(100, 20 * overshoot))`. -/
theorem computeFreshnessScore_per_meal_average (pickupDate : Int)
    (gi gi' : List GroceryItemRef) (pmd : List PerishableMealDate) (h : pmd ≠ []) :
    computeFreshnessScore pickupDate gi pmd = computeFreshnessScore pickupDate gi' pmd ∧
    computeFreshnessScore pickupDate gi pmd =
      (pmd.map fun meal =>
        if (((meal.plannedDate - pickupDate : Int) : ℚ) / ((msPerDay : Int) : ℚ)) < 0 then 0
        else if (((meal.plannedDate - pickupDate : Int) : ℚ) / ((msPerDay : Int) : ℚ))
            ≤ (getShelfLife meal.category).maxDays then
          max 0 (100 - (((meal.plannedDate - pickupDate : Int) : ℚ) / ((msPerDay : Int) : ℚ))
            / (getShelfLife meal.category).maxDays * 50)
        else
          max 0 (50 - min 100 (((((meal.plannedDate - pickupDate : Int) : ℚ)
            / ((msPerDay : Int) : ℚ)) - (getShelfLife meal.category).maxDays) * 20))).sum
        / (pmd.length : ℚ) := by
  refine ⟨rfl, ?_⟩
  unfold computeFreshnessScore
  rw [if_neg (by simpa [List.length_eq_zero] using h)]
  rfl

/-- C3 amended witness: the per-meal-average characterization at the
concrete Seafood meal, with two different grocery lists. -/
theorem computeFreshnessScore_per_meal_average_witness :
    computeFreshnessScore 0 [⟨"Rice", some "Pantry"⟩] [⟨"Seafood", msPerDay⟩]
      = computeFreshnessScore 0 [] [⟨"Seafood", msPerDay⟩] ∧
    computeFreshnessScore 0 [⟨"Rice", some "Pantry"⟩] [⟨"Seafood", msPerDay⟩] =
      (([⟨"Seafood", msPerDay⟩] : List PerishableMealDate).map fun meal =>
        if (((meal.plannedDate - (0 : Int) : Int) : ℚ) / ((msPerDay : Int) : ℚ)) < 0 then 0
        else if (((meal.plannedDate - (0 : Int) : Int) : ℚ) / ((msPerDay : Int) : ℚ))
            ≤ (getShelfLife meal.category).maxDays then
          max 0 (100 - (((meal.plannedDate - (0 : Int) : Int) : ℚ) / ((msPerDay : Int) : ℚ))
            / (getShelfLife meal.category).maxDays * 50)
        else
          max 0 (50 - min 100 (((((meal.plannedDate - (0 : Int) : Int) : ℚ)
            / ((msPerDay : Int) : ℚ)) - (getShelfLife meal.category).maxDays) * 20))).sum
        / (([⟨"Seafood", msPerDay⟩] : List PerishableMealDate).length : ℚ) :=
  computeFreshnessScore_per_meal_average 0 [⟨"Rice", some "Pantry"⟩] []
    [⟨"Seafood", msPerDay⟩] (by decide)
